import Mathlib

/-!
Verification of the corpus store / similarity engine in
`similarities/similarity.py` (class `Similarity`).

The Python state is

    self.corpus : dict            -- insertion-ordered mapping id -> document
    self.corpus_embeddings : list -- one embedding per inserted document

modelled as an association list with Python-dict update semantics
(`dictInsert` replaces the value in place when the key exists, otherwise
appends) together with a plain list of embeddings.

Documents coming from `add_corpus` are strings; `load_index` can store any
JSON value as a document, so corpus values are modelled as `JsonValue`.
Embeddings are opaque JSON-serialisable values produced by the external
encoder (`SentenceModel.encode`, out of scope of the repository); the encoder
is a parameter `encode : List String → List JsonValue` of every operation
that computes vectors.

The score functions `cos_sim` and `dot_score` and the routine
`semantic_search` are imported by `similarity.py` from
`similarities/utils/util.py`, which is not part of the sources; the score
functions are kept as parameters (their values never decide a claim) and
`semantic_search` is modelled from the spec below.
-/

/-- JSON values, as produced by Python `json.load` (numbers as rationals). -/
inductive JsonValue where
  | null : JsonValue
  | boolean (b : Bool) : JsonValue
  | num (q : ℚ) : JsonValue
  | str (s : String) : JsonValue
  | arr (elems : List JsonValue) : JsonValue
  | obj (fields : List (String × JsonValue)) : JsonValue

/-- Python exception kinds that `load_index` / `most_similar` can raise. -/
inductive PyError where
  | ioError : PyError
  | jsonDecodeError : PyError
  | valueError : PyError
  | keyError : PyError
  | typeError : PyError
  | attributeError : PyError
deriving DecidableEq

/-- The mutable state of a `Similarity` object: `self.corpus` (an
insertion-ordered dict `id -> document`) and `self.corpus_embeddings`. -/
structure SimState where
  corpus : List (Int × JsonValue)
  corpus_embeddings : List JsonValue

/-- Is the key present in the association list (Python `k in d`). -/
def keyMem {κ β : Type _} [DecidableEq κ] (k : κ) (d : List (κ × β)) : Bool :=
  d.any (fun p => decide (p.1 = k))

/-- Python dict `d[k] = v`: replace in place if `k` is a key, else append. -/
def dictInsert {κ β : Type _} [DecidableEq κ] (d : List (κ × β)) (k : κ) (v : β) :
    List (κ × β) :=
  if keyMem k d then d.map (fun p => if p.1 = k then (k, v) else p) else d ++ [(k, v)]

/-- Python dict `d.update(new)`: insert the entries of `new` in order. -/
def dictUpdate {κ β : Type _} [DecidableEq κ] (d new : List (κ × β)) : List (κ × β) :=
  new.foldl (fun acc p => dictInsert acc p.1 p.2) d

/-- Python dict lookup `d[k]` as an `Option` (first matching key). -/
def pyLookup {κ β : Type _} [DecidableEq κ] (k : κ) : List (κ × β) → Option β
  | [] => none
  | p :: rest => if p.1 = k then some p.2 else pyLookup k rest

/-- Python `text == v` for a JSON value `v`: true only when `v` is the same
string (`str == non-str` is `False` in Python). -/
def pyStrEq (text : String) : JsonValue → Bool
  | JsonValue.str u => decide (u = text)
  | _ => false

/-- Python `doc in self.corpus.values()` for a candidate document string. -/
def corpusHasText (s : SimState) (doc : String) : Bool :=
  s.corpus.any (fun p => pyStrEq doc p.2)

/-- The two accepted shapes of the `corpus` argument of `add_corpus`:
a list of document strings, or a dict (its items in insertion order). -/
inductive CorpusInput where
  | list (docs : List String) : CorpusInput
  | dict (entries : List (String × String)) : CorpusInput

/-- `start_id = len(self.corpus) if self.corpus else 0` in `add_corpus`. -/
def corpusStartId (s : SimState) : Int :=
  if s.corpus.isEmpty then 0 else (s.corpus.length : Int)

/-- The `new_corpus` dict built by the loop of `add_corpus`.  For a list,
`for id, doc in enumerate(corpus)` yields positions and documents and the
new key is `start_id + id`; for a dict, iterating the dict yields its KEYS,
so `doc` is the key and the new key is the bare position `id`.  In both
branches the candidate is skipped when `doc in self.corpus.values()`. -/
def newCorpusFor (s : SimState) : CorpusInput → List (Int × String)
  | CorpusInput.list docs =>
      docs.enum.foldl
        (fun nc p =>
          if corpusHasText s p.2 then nc
          else dictInsert nc (corpusStartId s + (p.1 : Int)) p.2)
        []
  | CorpusInput.dict entries =>
      entries.enum.foldl
        (fun nc p =>
          if corpusHasText s p.2.1 then nc
          else dictInsert nc ((p.1 : Int)) p.2.1)
        []

/-- `Similarity.add_corpus`: build `new_corpus`, merge it into `self.corpus`
with `dict.update`, encode `list(new_corpus.values())` in one batch and
append the result to `self.corpus_embeddings` (`old + new if old else new`). -/
def add_corpus (encode : List String → List JsonValue) (s : SimState)
    (input : CorpusInput) : SimState :=
  let nc := newCorpusFor s input
  let corpusNew := dictUpdate s.corpus (nc.map (fun p => (p.1, JsonValue.str p.2)))
  let newEmbeddings := encode (nc.map Prod.snd)
  let embeddingsNew :=
    if s.corpus_embeddings.isEmpty then newEmbeddings
    else s.corpus_embeddings ++ newEmbeddings
  ⟨corpusNew, embeddingsNew⟩

/-- A deterministic stand-in for the external encoder, used to evaluate
closed statements: one fixed-width vector per input text. -/
def demoEncode (texts : List String) : List JsonValue :=
  texts.map (fun t => JsonValue.arr [JsonValue.num ((t.length : ℚ))])

/-- An encoder is faithful when it returns one vector per input text
(guaranteed by the `Encoder` interface of the spec). -/
def FaithfulEncoder (encode : List String → List JsonValue) : Prop :=
  ∀ texts, (encode texts).length = texts.length

/-- The empty store (`self.corpus = {}`, `self.corpus_embeddings = []`). -/
def emptyState : SimState := ⟨[], []⟩

/-- The decimal digit character for `d < 10` (code 48 + d). -/
def digitChar (d : Nat) : Char := Char.ofNat (48 + d)

/-- The decimal digits of a natural number, most significant first
(the characters of Python `str(n)` for `n ≥ 0`). -/
def natToDigits (n : Nat) : List Char :=
  if _h : n < 10 then [digitChar n]
  else natToDigits (n / 10) ++ [digitChar (n % 10)]
termination_by n
decreasing_by exact Nat.div_lt_self (by omega) (by omega)

/-- The value of a decimal digit character, if it is one. -/
def digitVal (c : Char) : Option Nat :=
  if 48 ≤ c.toNat ∧ c.toNat ≤ 57 then some (c.toNat - 48) else none

/-- Accumulate decimal digits left to right; fails on a non-digit. -/
def digitsToNat (acc : Nat) : List Char → Option Nat
  | [] => some acc
  | c :: cs =>
      match digitVal c with
      | none => none
      | some d => digitsToNat (10 * acc + d) cs

/-- Python `int(text)` on a stripped character list: an optional sign
followed by at least one decimal digit.  (Python additionally tolerates
surrounding whitespace and underscores between digits; immaterial to every
string this development feeds to it.) -/
def pyIntCore (cs : List Char) : Option Int :=
  match cs with
  | [] => none
  | c :: rest =>
      if c = '-' then
        if rest = [] then none else (digitsToNat 0 rest).map (fun m : Nat => -(m : Int))
      else if c = '+' then
        if rest = [] then none else (digitsToNat 0 rest).map (fun m : Nat => ((m : Int)))
      else (digitsToNat 0 (c :: rest)).map (fun m : Nat => ((m : Int)))

/-- Python `int(text)` for a string, raising `ValueError` (here `none`)
when the string is not an integer literal. -/
def pyInt (text : String) : Option Int := pyIntCore text.data

/-- Python `str(n)` for an integer, as produced by `json.dump` when it
serialises the integer keys of the saved dict. -/
def pyIntToString (n : Int) : String :=
  if n < 0 then String.mk ('-' :: natToDigits n.natAbs)
  else String.mk (natToDigits n.toNat)

/-- Lookup of a field in the field list of a JSON object. -/
def fieldLookup (key : String) : List (String × JsonValue) → Option JsonValue
  | [] => none
  | p :: rest => if p.1 = key then some p.2 else fieldLookup key rest

/-- Python subscripting `v[key]` with a string key: a `KeyError` when `v`
is a dict without the key, a `TypeError` when `v` is not a dict (list and
str reject non-integer indices, the other values are not subscriptable). -/
def jsonGet (v : JsonValue) (key : String) : Except PyError JsonValue :=
  match v with
  | JsonValue.obj fields =>
      match fieldLookup key fields with
      | some x => Except.ok x
      | none => Except.error PyError.keyError
  | _ => Except.error PyError.typeError

/-- What the snapshot file holds when `load_index` opens it: the file is
missing (`open` raises `IOError`), its content is not JSON (`json.load`
raises `JSONDecodeError`), or it parses to a JSON value. -/
inductive FileContent where
  | missing : FileContent
  | invalidJson : FileContent
  | json (v : JsonValue) : FileContent

/-- The `open` + `json.load` prefix of the `try` block of `load_index`. -/
def readJson : FileContent → Except PyError JsonValue
  | FileContent.missing => Except.error PyError.ioError
  | FileContent.invalidJson => Except.error PyError.jsonDecodeError
  | FileContent.json v => Except.ok v

/-- The entry loop of `load_index`.  Per entry `(id, corpus_dict)` the
statement `self.corpus[int(id)] = corpus_dict["doc"]` first evaluates the
right-hand side, then `int(id)`, then mutates `self.corpus`; afterwards
`corpus_dict["doc_emb"]` is appended to the LOCAL list, which is assigned
to `self.corpus_embeddings` only when the whole loop finished.  The pair
returned is (escaped exception if any, state of the object afterwards). -/
def loadEntries (s : SimState) (embsAcc : List JsonValue) :
    List (String × JsonValue) → Option PyError × SimState
  | [] => (none, { s with corpus_embeddings := embsAcc })
  | (k, v) :: rest =>
      match jsonGet v "doc" with
      | Except.error e => (some e, s)
      | Except.ok doc =>
          match pyInt k with
          | none => (some PyError.valueError, s)
          | some id =>
              match jsonGet v "doc_emb" with
              | Except.error e => (some e, { s with corpus := dictInsert s.corpus id doc })
              | Except.ok emb =>
                  loadEntries { s with corpus := dictInsert s.corpus id doc }
                    (embsAcc ++ [emb]) rest

/-- The body of the `try` block of `load_index`: read and parse the file,
then iterate `corpus_emb.items()` (an `AttributeError` when the parsed
value is not a JSON object). -/
def loadBody (s : SimState) (file : FileContent) : Option PyError × SimState :=
  match readJson file with
  | Except.error e => (some e, s)
  | Except.ok v =>
      match v with
      | JsonValue.obj entries => loadEntries s [] entries
      | _ => (some PyError.attributeError, s)

/-- Which exceptions the `except (IOError, json.JSONDecodeError)` clause
of `load_index` catches. -/
def isCaught : PyError → Bool
  | PyError.ioError => true
  | PyError.jsonDecodeError => true
  | _ => false

/-- `Similarity.load_index`: run the `try` block; a caught exception is
logged and swallowed (the state stays as the body left it), any other
exception escapes to the caller. -/
def load_index (s : SimState) (file : FileContent) : Option PyError × SimState :=
  match loadBody s file with
  | (some e, sAfter) => if isCaught e then (none, sAfter) else (some e, sAfter)
  | (none, sAfter) => (none, sAfter)

/-- `Similarity.save_index`: the JSON value dumped to the file,
`{id: {"doc": self.corpus[id], "doc_emb": emb} for id, emb in
zip(self.corpus.keys(), self.corpus_embeddings)}`, with the integer keys
serialised to strings by `json.dump`. -/
def save_index (s : SimState) : JsonValue :=
  JsonValue.obj
    (((s.corpus.map Prod.fst).zip s.corpus_embeddings).map (fun p =>
      (pyIntToString p.1,
        JsonValue.obj
          [("doc", (pyLookup p.1 s.corpus).getD JsonValue.null),
           ("doc_emb", p.2)])))

/-- A batched score function: two batches of embeddings to a score matrix
(`cos_sim` and `dot_score` are imported from `similarities/utils/util.py`,
which is not among the sources, so implementations stay parameters). -/
def ScoreFn : Type := List JsonValue → List JsonValue → List (List ℚ)

/-- A score function is well shaped when it returns one score row per
query vector (the spec: shapes m×d and n×d produce an m×n matrix). -/
def WellShapedScore (f : ScoreFn) : Prop :=
  ∀ a b, (f a b).length = a.length

/-- The registry lookup in `self.score_functions = {'cos_sim': cos_sim,
'dot': dot_score}`. -/
def scoreFunctionFor (cosImpl dotImpl : ScoreFn) (name : String) : Option ScoreFn :=
  if name = "cos_sim" then some cosImpl
  else if name = "dot" then some dotImpl
  else none

/-- `Similarity.similarity`: raise `ValueError` when the score-function
name is not registered, otherwise encode both sides and apply the score
function. -/
def similarity (cosImpl dotImpl : ScoreFn) (encode : List String → List JsonValue)
    (a b : List String) (score_function : String) : Except PyError (List (List ℚ)) :=
  match scoreFunctionFor cosImpl dotImpl score_function with
  | none => Except.error PyError.valueError
  | some f => Except.ok (f (encode a) (encode b))

/-- `Similarity.distance`: `1 - self.similarity(a, b)` with the default
score function; the numpy broadcasting subtracts every matrix entry from 1. -/
def distance (cosImpl dotImpl : ScoreFn) (encode : List String → List JsonValue)
    (a b : List String) : Except PyError (List (List ℚ)) :=
  match similarity cosImpl dotImpl encode a b "cos_sim" with
  | Except.error e => Except.error e
  | Except.ok m => Except.ok (m.map (fun row => row.map (fun x => 1 - x)))

/-- A search hit: a corpus position and its score. -/
structure SearchHit where
  corpus_id : Nat
  score : ℚ
deriving DecidableEq

/-- Ranking of hits: higher score first, ties by ascending corpus id. -/
def hitBefore (a b : SearchHit) : Bool :=
  decide (b.score < a.score) || (decide (a.score = b.score) && decide (a.corpus_id ≤ b.corpus_id))

/-- Insert a hit into a list sorted by `hitBefore`. -/
def insertHit (h : SearchHit) : List SearchHit → List SearchHit
  | [] => [h]
  | x :: xs => if hitBefore h x then h :: x :: xs else x :: insertHit h xs

/-- Insertion sort of hits by descending score, ties by ascending id. -/
def sortHits (hits : List SearchHit) : List SearchHit :=
  hits.foldr insertHit []

/-- Modelled from the spec: `semantic_search` (imported from
`similarities/utils/util.py`, not among the sources).  It computes the full
score matrix in one batched call, and per query row returns up to `top_k`
hits sorted by descending score with ties broken by ascending corpus id;
`top_k` larger than the corpus returns all hits, and a query against an
empty corpus yields an empty hit list. -/
def semantic_search (score_function : ScoreFn) (queryEmb corpusEmb : List JsonValue)
    (top_k : Nat) : List (List SearchHit) :=
  (score_function queryEmb corpusEmb).map (fun row =>
    (sortHits (row.enum.map (fun p => SearchHit.mk p.1 p.2))).take top_k)

/-- The three accepted shapes of the `queries` argument of `most_similar`. -/
inductive QueryInput where
  | str (q : String) : QueryInput
  | list (qs : List String) : QueryInput
  | dict (entries : List (String × String)) : QueryInput

/-- A query id: positional for str/list input, the caller's string key for
dict input. -/
inductive QueryKey where
  | num (n : Nat) : QueryKey
  | txt (s : String) : QueryKey
deriving DecidableEq

/-- The normalisation prefix of `most_similar`: a bare string becomes a
one-element list, a list becomes `{id: query for id, query in
enumerate(queries)}`, a dict keeps its own keys. -/
def normalizeQueries : QueryInput → List (QueryKey × String)
  | QueryInput.str q => [(QueryKey.num 0, q)]
  | QueryInput.list qs => qs.enum.map (fun p => (QueryKey.num p.1, p.2))
  | QueryInput.dict entries => entries.map (fun p => (QueryKey.txt p.1, p.2))

/-- `result[qid][hit['corpus_id']] = hit['score']`: a `KeyError` (here
`none`) when `qid` is not a key of `result`. -/
def setScore (res : List (QueryKey × List (Nat × ℚ))) (qid : QueryKey)
    (cid : Nat) (sc : ℚ) : Option (List (QueryKey × List (Nat × ℚ))) :=
  if keyMem qid res then
    some (res.map (fun p => if p.1 = qid then (p.1, dictInsert p.2 cid sc) else p))
  else none

/-- Store the scores of `hits[0:topn]` under query id `qid`, hit by hit. -/
def fillHits (qid : QueryKey) :
    List SearchHit → List (QueryKey × List (Nat × ℚ)) →
    Option (List (QueryKey × List (Nat × ℚ)))
  | [], res => some res
  | h :: rest, res =>
      match setScore res qid h.corpus_id h.score with
      | none => none
      | some r => fillHits qid rest r

/-- The result loop of `most_similar`: `for idx, hits in
enumerate(all_hits)`, look the original query id up in `queries_ids_map`
(a `KeyError` when `idx` has no entry) and store the top hits under it. -/
def fillAll (idsMap : List (Nat × QueryKey)) (topn : Nat) :
    List (Nat × List SearchHit) → List (QueryKey × List (Nat × ℚ)) →
    Option (List (QueryKey × List (Nat × ℚ)))
  | [], res => some res
  | (idx, hits) :: rest, res =>
      match pyLookup idx idsMap with
      | none => none
      | some qid =>
          match fillHits qid (hits.take topn) res with
          | none => none
          | some r => fillAll idsMap topn rest r

/-- `result = {qid: {} for qid, query in queries.items()}`. -/
def initResult (queries : QueryInput) : List (QueryKey × List (Nat × ℚ)) :=
  (normalizeQueries queries).map (fun p => (p.1, ([] : List (Nat × ℚ))))

/-- `queries_ids_map = {i: id for i, id in enumerate(list(queries.keys()))}`. -/
def queryIdsMap (queries : QueryInput) : List (Nat × QueryKey) :=
  (normalizeQueries queries).enum.map (fun p => (p.1, p.2.1))

/-- `queries_texts = list(queries.values())`. -/
def queryTexts (queries : QueryInput) : List String :=
  (normalizeQueries queries).map Prod.snd

/-- The part of `most_similar` after the score-function check: encode the
query texts in one batch, delegate to `semantic_search` against
`self.corpus_embeddings`, and store the hits under the original query ids. -/
def mostSimilarBody (f : ScoreFn) (encode : List String → List JsonValue)
    (s : SimState) (queries : QueryInput) (topn : Nat) :
    Except PyError (List (QueryKey × List (Nat × ℚ))) :=
  match fillAll (queryIdsMap queries) topn
      (semantic_search f (encode (queryTexts queries)) s.corpus_embeddings topn).enum
      (initResult queries) with
  | none => Except.error PyError.keyError
  | some r => Except.ok r

/-- `Similarity.most_similar`: normalise `queries` to an id-keyed ordered
mapping, raise `ValueError` for an unregistered score-function name, and
run the search body. -/
def most_similar (cosImpl dotImpl : ScoreFn) (encode : List String → List JsonValue)
    (s : SimState) (queries : QueryInput) (topn : Nat) (score_function : String) :
    Except PyError (List (QueryKey × List (Nat × ℚ))) :=
  match scoreFunctionFor cosImpl dotImpl score_function with
  | none => Except.error PyError.valueError
  | some f => mostSimilarBody f encode s queries topn

/-- A deterministic well-shaped stand-in for an imported score function,
used to evaluate closed statements: one row per query, one zero per
corpus vector. -/
def stubScore : ScoreFn := fun a b => a.map (fun _ => b.map (fun _ => (0 : ℚ)))

/-- An entry of the snapshot object that the loop of `load_index` accepts:
the key parses as an integer and the value is an object carrying both a
`doc` and a `doc_emb` field. -/
def wellFormedEntry (e : String × JsonValue) : Bool :=
  (pyInt e.1).isSome && (jsonGet e.2 "doc").toBool && (jsonGet e.2 "doc_emb").toBool

/-- The integer ids named by a snapshot object. -/
def entryIds (entries : List (String × JsonValue)) : List Int :=
  entries.filterMap (fun e => pyInt e.1)

/-- The embedding stored by a snapshot entry (`null` when absent). -/
def entryEmb (e : String × JsonValue) : JsonValue :=
  ((jsonGet e.2 "doc_emb").toOption).getD JsonValue.null

/-- The store reached from fresh by three list-shaped `add_corpus` calls
whose middle call skips a duplicate: `["a", "b"]`, then `["a", "c"]`,
then `["d"]`. -/
def collideState1 : SimState :=
  add_corpus demoEncode emptyState (CorpusInput.list ["a", "b"])

/-- Second step of the collision scenario. -/
def collideState2 : SimState :=
  add_corpus demoEncode collideState1 (CorpusInput.list ["a", "c"])

/-- Third step of the collision scenario: `start_id` is 3, and the new key
3 collides with the id the skipped duplicate left behind. -/
def collideState3 : SimState :=
  add_corpus demoEncode collideState2 (CorpusInput.list ["d"])

/-- A snapshot file whose first entry is well formed and whose second has
the non-integer id `"x"`: `load_index` stores the first document and then
raises an uncaught `ValueError`. -/
def partialFile : FileContent :=
  FileContent.json (JsonValue.obj
    [("0", JsonValue.obj [("doc", JsonValue.str "a"),
                          ("doc_emb", JsonValue.arr [JsonValue.num 1])]),
     ("x", JsonValue.obj [("doc", JsonValue.str "b"),
                          ("doc_emb", JsonValue.arr [JsonValue.num 2])])])

/-- A store whose corpus and embedding list are misaligned: one document,
no embedding.  It is reachable: loading `{"0": {"doc": "a"}}` into a fresh
store mutates the corpus and then raises `KeyError` at `doc_emb`. -/
def misalignedState : SimState := ⟨[((0 : Int), JsonValue.str "a")], []⟩

/-- The snapshot file that `load_index` reads after `save_index` wrote the
JSON value `v`. -/
def fileOf (v : JsonValue) : FileContent := FileContent.json v

/-- The snapshot entries that `save_index` writes for a corpus paired with
an equally long embedding list (zipping pairs each id and its document
with the embedding at the same position). -/
def snapshotEntries (c : List (Int × JsonValue)) (embs : List JsonValue) :
    List (String × JsonValue) :=
  (c.zip embs).map (fun p =>
    (pyIntToString p.1.1, JsonValue.obj [("doc", p.1.2), ("doc_emb", p.2)]))

/-- A snapshot file holding one well-formed entry with id 5, used to show
a successful load into a non-empty store leaving more documents than
embeddings. -/
def mergeDemoFile : FileContent :=
  FileContent.json (JsonValue.obj
    [("5", JsonValue.obj [("doc", JsonValue.str "z"),
                          ("doc_emb", JsonValue.arr [JsonValue.num 9])])])

theorem keyMem_eq_true_iff {κ β : Type _} [DecidableEq κ] (k : κ) (d : List (κ × β)) :
    keyMem k d = true ↔ k ∈ d.map Prod.fst := by
  induction d with
  | nil => simp [keyMem]
  | cons p rest ih =>
      simp only [keyMem, List.any_cons, Bool.or_eq_true, decide_eq_true_eq,
        List.map_cons, List.mem_cons] at ih ⊢
      constructor
      · rintro (h | h)
        · exact Or.inl h.symm
        · exact Or.inr (ih.mp h)
      · rintro (h | h)
        · exact Or.inl h.symm
        · exact Or.inr (ih.mpr h)

theorem keyMem_eq_false_iff {κ β : Type _} [DecidableEq κ] (k : κ) (d : List (κ × β)) :
    keyMem k d = false ↔ k ∉ d.map Prod.fst := by
  rw [← Bool.not_eq_true, not_iff_not]
  exact keyMem_eq_true_iff k d

theorem dictInsert_of_not_mem {κ β : Type _} [DecidableEq κ] {k : κ} {d : List (κ × β)}
    (v : β) (h : k ∉ d.map Prod.fst) : dictInsert d k v = d ++ [(k, v)] := by
  rw [dictInsert, (keyMem_eq_false_iff k d).mpr h]
  rfl

theorem pyLookup_map_replace {κ β : Type _} [DecidableEq κ] {k k' : κ} (v : β)
    (d : List (κ × β)) (h : k' ≠ k) :
    pyLookup k' (d.map (fun p => if p.1 = k then (k, v) else p)) = pyLookup k' d := by
  induction d with
  | nil => rfl
  | cons p rest ih =>
      by_cases hp : p.1 = k
      · simp only [List.map_cons, if_pos hp, pyLookup,
          if_neg (fun hh : k = k' => h hh.symm), if_neg (fun hh : p.1 = k' => h (hp ▸ hh).symm)]
        exact ih
      · by_cases hp' : p.1 = k'
        · simp only [List.map_cons, if_neg hp, pyLookup, if_pos hp']
        · simp only [List.map_cons, if_neg hp, pyLookup, if_neg hp']
          exact ih

theorem pyLookup_append_single_ne {κ β : Type _} [DecidableEq κ] {k k' : κ} (v : β)
    (d : List (κ × β)) (h : k' ≠ k) :
    pyLookup k' (d ++ [(k, v)]) = pyLookup k' d := by
  induction d with
  | nil => simp only [List.nil_append, pyLookup, if_neg (fun hh : k = k' => h hh.symm)]
  | cons p rest ih =>
      by_cases hp' : p.1 = k'
      · simp only [List.cons_append, pyLookup, if_pos hp']
      · simp only [List.cons_append, pyLookup, if_neg hp']
        exact ih

theorem pyLookup_dictInsert_ne {κ β : Type _} [DecidableEq κ] {k k' : κ}
    (d : List (κ × β)) (v : β) (h : k' ≠ k) :
    pyLookup k' (dictInsert d k v) = pyLookup k' d := by
  rw [dictInsert]
  by_cases hk : keyMem k d
  · rw [if_pos hk]
    exact pyLookup_map_replace v d h
  · rw [if_neg hk]
    exact pyLookup_append_single_ne v d h

theorem pyLookup_eq_none_of_not_mem {κ β : Type _} [DecidableEq κ] {k : κ}
    {d : List (κ × β)} (h : k ∉ d.map Prod.fst) : pyLookup k d = none := by
  induction d with
  | nil => rfl
  | cons p rest ih =>
      simp only [List.map_cons, List.mem_cons, not_or] at h
      simp only [pyLookup, if_neg (fun hh : p.1 = k => h.1 hh.symm)]
      exact ih h.2

theorem pyLookup_dictInsert_self {κ β : Type _} [DecidableEq κ] (k : κ)
    (d : List (κ × β)) (v : β) : pyLookup k (dictInsert d k v) = some v := by
  rw [dictInsert]
  by_cases hk : keyMem k d
  · rw [if_pos hk]
    rw [keyMem_eq_true_iff] at hk
    induction d with
    | nil => simp at hk
    | cons p rest ih =>
        simp only [List.map_cons, List.mem_cons] at hk
        by_cases hp : p.1 = k
        · simp [if_pos hp, pyLookup]
        · simp only [List.map_cons, if_neg hp, pyLookup, if_neg hp]
          exact ih (hk.resolve_left (fun hh => hp hh.symm))
  · rw [if_neg hk]
    rw [Bool.not_eq_true, keyMem_eq_false_iff] at hk
    induction d with
    | nil => simp [pyLookup]
    | cons p rest ih =>
        simp only [List.map_cons, List.mem_cons, not_or] at hk
        simp only [List.cons_append, pyLookup, if_neg (fun hh : p.1 = k => hk.1 hh.symm)]
        exact ih hk.2

theorem pyLookup_dictUpdate_not_mem {κ β : Type _} [DecidableEq κ] {k : κ}
    (d : List (κ × β)) {new : List (κ × β)} (h : k ∉ new.map Prod.fst) :
    pyLookup k (dictUpdate d new) = pyLookup k d := by
  induction new generalizing d with
  | nil => rfl
  | cons p rest ih =>
      simp only [List.map_cons, List.mem_cons, not_or] at h
      show pyLookup k (dictUpdate (dictInsert d p.1 p.2) rest) = pyLookup k d
      rw [ih (dictInsert d p.1 p.2) h.2, pyLookup_dictInsert_ne d p.2 h.1]

theorem pyLookup_dictUpdate_mem {κ β : Type _} [DecidableEq κ] {k : κ} {v : β}
    (d : List (κ × β)) {new : List (κ × β)} (hnd : (new.map Prod.fst).Nodup)
    (hmem : (k, v) ∈ new) : pyLookup k (dictUpdate d new) = some v := by
  induction new generalizing d with
  | nil => simp at hmem
  | cons p rest ih =>
      simp only [List.map_cons, List.nodup_cons] at hnd
      show pyLookup k (dictUpdate (dictInsert d p.1 p.2) rest) = some v
      rcases List.mem_cons.mp hmem with heq | hrest
      · subst heq
        rw [pyLookup_dictUpdate_not_mem _ hnd.1, pyLookup_dictInsert_self]
      · exact ih (dictInsert d p.1 p.2) hnd.2 hrest

theorem pyLookup_of_mem_nodup {κ β : Type _} [DecidableEq κ] {k : κ} {v : β}
    {d : List (κ × β)} (hnd : (d.map Prod.fst).Nodup) (hmem : (k, v) ∈ d) :
    pyLookup k d = some v := by
  induction d with
  | nil => simp at hmem
  | cons p rest ih =>
      simp only [List.map_cons, List.nodup_cons] at hnd
      rcases List.mem_cons.mp hmem with heq | hrest
      · subst heq
        simp [pyLookup]
      · have hk : p.1 ≠ k := by
          intro hh
          exact hnd.1 (hh ▸ (List.mem_map.mpr ⟨(k, v), hrest, rfl⟩))
        simp only [pyLookup, if_neg hk]
        exact ih hnd.2 hrest

/-- Claim C1 (code bug).  For the mapping input `{"7": "hello"}` against a
fresh store, `add_corpus` does not use the caller id `"7"` as the corpus
id of `"hello"`: `for id, doc in enumerate(corpus)` iterates the KEYS of a
dict, so the stored corpus becomes `{0: "7"}` — a positional id with the
key string as the document — and the document text `"hello"` appears
nowhere among the stored values. -/
theorem add_corpus_dict_ignores_caller_ids :
    (add_corpus demoEncode emptyState (CorpusInput.dict [("7", "hello")])).corpus
      = [((0 : Int), JsonValue.str "7")] ∧
    corpusHasText (add_corpus demoEncode emptyState (CorpusInput.dict [("7", "hello")]))
      "hello" = false := by
  exact ⟨rfl, rfl⟩

/-- Claim C2 (code bug).  The calls `add_corpus(["a", "b"])`,
`add_corpus(["a", "c"])`, `add_corpus(["d"])` on a fresh store end with
three corpus documents but four stored embeddings: the skipped duplicate
in the second call makes `"c"` take id 3, the third call computes
`start_id = 3` again, and `{3: "d"}` silently overwrites `"c"` while a
fourth embedding is appended — `len(corpus) == len(corpus_embeddings)`
and the positional alignment are both destroyed. -/
theorem add_corpus_breaks_length_invariant :
    collideState3.corpus.length = 3 ∧
    collideState3.corpus_embeddings.length = 4 ∧
    collideState3.corpus.map Prod.fst = [(0 : Int), 1, 3] := by
  exact ⟨rfl, rfl, rfl⟩

/-- Claim C4, counterexample.  Loading a file whose first entry is well
formed and whose second has the non-integer id `"x"` raises an uncaught
`ValueError` past the boundary of the call and leaves the store partially
populated with the first document. -/
theorem load_index_partial_mutation_cex :
    (load_index emptyState partialFile).1 = some PyError.valueError ∧
    (load_index emptyState partialFile).2.corpus = [((0 : Int), JsonValue.str "a")] := by
  exact ⟨rfl, rfl⟩

/-- Claim C5, counterexample.  A store holding one document and no
embedding (reachable: loading `{"0": {"doc": "a"}}` into a fresh store
stores the document and then raises `KeyError` at the missing `doc_emb`)
does not survive the round trip: `save_index` zips ids with embeddings,
writes an empty object, and loading it into a fresh store reproduces an
empty corpus instead of the original mapping. -/
theorem save_load_roundtrip_cex :
    load_index emptyState
        (FileContent.json (JsonValue.obj
          [("0", JsonValue.obj [("doc", JsonValue.str "a")])]))
      = (some PyError.keyError, misalignedState) ∧
    misalignedState.corpus ≠ [] ∧
    load_index emptyState (fileOf (save_index misalignedState)) = (none, emptyState) := by
  refine ⟨rfl, by simp [misalignedState], rfl⟩

/-- Claim C6 (confirmed).  `similarity` and `most_similar` raise the
configuration error (`ValueError`) exactly when the requested score
function name is missing from the registry `{"cos_sim", "dot"}`; a
registered name is never rejected and an unknown one is never replaced by
a fallback score function. -/
theorem scoreFunctionFor_eq_none_iff (cosImpl dotImpl : ScoreFn) (name : String) :
    scoreFunctionFor cosImpl dotImpl name = none ↔ ¬ (name = "cos_sim" ∨ name = "dot") := by
  unfold scoreFunctionFor
  by_cases h1 : name = "cos_sim" <;> by_cases h2 : name = "dot" <;> simp [h1, h2]

theorem mostSimilarBody_ne_valueError (f : ScoreFn)
    (encode : List String → List JsonValue) (s : SimState)
    (q : QueryInput) (topn : Nat) :
    mostSimilarBody f encode s q topn ≠ Except.error PyError.valueError := by
  unfold mostSimilarBody
  cases hfill : fillAll (queryIdsMap q) topn
      (semantic_search f (encode (queryTexts q)) s.corpus_embeddings topn).enum
      (initResult q) <;> simp

theorem score_function_error_iff_unregistered
    (cosImpl dotImpl : ScoreFn) (encode : List String → List JsonValue)
    (s : SimState) (a b : List String) (q : QueryInput) (topn : Nat) (name : String) :
    ((similarity cosImpl dotImpl encode a b name = Except.error PyError.valueError) ↔
      ¬ (name = "cos_sim" ∨ name = "dot")) ∧
    ((most_similar cosImpl dotImpl encode s q topn name = Except.error PyError.valueError) ↔
      ¬ (name = "cos_sim" ∨ name = "dot")) := by
  cases hreg : scoreFunctionFor cosImpl dotImpl name with
  | none =>
      have hn : ¬ (name = "cos_sim" ∨ name = "dot") :=
        (scoreFunctionFor_eq_none_iff cosImpl dotImpl name).mp hreg
      constructor
      · simp [similarity, hreg, hn]
      · simp [most_similar, hreg, hn]
  | some f =>
      have hs : name = "cos_sim" ∨ name = "dot" := by
        by_contra hn
        rw [(scoreFunctionFor_eq_none_iff cosImpl dotImpl name).mpr hn] at hreg
        exact Option.noConfusion hreg
      constructor
      · simp [similarity, hreg, hs]
      · simp only [most_similar, hreg]
        simp [mostSimilarBody_ne_valueError f encode s q topn, hs]

/-- Claim C7 (confirmed).  `distance` is exactly `1 - similarity(a, b)`
under the default score function, elementwise over the whole score
matrix: both calls succeed, and every entry of the distance matrix is one
minus the corresponding entry of the similarity matrix (entries indexed
through `Option` so the shapes agree as well). -/
theorem distance_is_one_minus_similarity
    (cosImpl dotImpl : ScoreFn) (encode : List String → List JsonValue)
    (a b : List String) :
    ∃ m d : List (List ℚ), similarity cosImpl dotImpl encode a b "cos_sim" = Except.ok m ∧
      distance cosImpl dotImpl encode a b = Except.ok d ∧
      ∀ (i j : Nat), (d[i]?.bind (fun row : List ℚ => row[j]?))
        = (m[i]?.bind (fun row : List ℚ => row[j]?)).map (fun x => 1 - x) := by
  refine ⟨cosImpl (encode a) (encode b),
    (cosImpl (encode a) (encode b)).map
      (fun row : List ℚ => row.map (fun x : ℚ => 1 - x)),
    rfl, rfl, ?_⟩
  intro i j
  cases hrow : (cosImpl (encode a) (encode b))[i]? with
  | none => simp [List.getElem?_map, hrow]
  | some row => simp [List.getElem?_map, hrow]

theorem digitChar_toNat {d : Nat} (h : d < 10) : (digitChar d).toNat = 48 + d := by
  unfold digitChar
  interval_cases d <;> decide

theorem digitVal_digitChar {d : Nat} (h : d < 10) : digitVal (digitChar d) = some d := by
  have ht := digitChar_toNat h
  rw [digitVal, ht, if_pos (by omega)]
  congr 1
  omega

theorem digitChar_ne_dash {d : Nat} (h : d < 10) : digitChar d ≠ '-' := by
  intro hc
  have ht := digitChar_toNat h
  rw [hc] at ht
  rw [show ('-').toNat = 45 from rfl] at ht
  omega

theorem digitChar_ne_plus {d : Nat} (h : d < 10) : digitChar d ≠ '+' := by
  intro hc
  have ht := digitChar_toNat h
  rw [hc] at ht
  rw [show ('+').toNat = 43 from rfl] at ht
  omega

theorem natToDigits_mem {n : Nat} : ∀ c ∈ natToDigits n, ∃ d, d < 10 ∧ c = digitChar d := by
  induction n using Nat.strong_induction_on with
  | _ n ih =>
      intro c hc
      rw [natToDigits] at hc
      by_cases h : n < 10
      · rw [dif_pos h] at hc
        simp only [List.mem_singleton] at hc
        exact ⟨n, h, hc⟩
      · rw [dif_neg h] at hc
        rcases List.mem_append.mp hc with h1 | h2
        · exact ih (n / 10) (Nat.div_lt_self (by omega) (by omega)) c h1
        · simp only [List.mem_singleton] at h2
          exact ⟨n % 10, Nat.mod_lt n (by omega), h2⟩

theorem natToDigits_ne_nil (n : Nat) : natToDigits n ≠ [] := by
  rw [natToDigits]
  by_cases h : n < 10
  · rw [dif_pos h]
    simp
  · rw [dif_neg h]
    simp

theorem digitsToNat_append (acc : Nat) (xs ys : List Char) :
    digitsToNat acc (xs ++ ys) = (digitsToNat acc xs).bind (fun m => digitsToNat m ys) := by
  induction xs generalizing acc with
  | nil => rfl
  | cons c cs ih =>
      cases hd : digitVal c with
      | none => simp [digitsToNat, hd]
      | some d => simp [digitsToNat, hd, ih]

theorem digitsToNat_natToDigits (n : Nat) :
    ∀ acc, digitsToNat acc (natToDigits n) = some (acc * 10 ^ (natToDigits n).length + n) := by
  induction n using Nat.strong_induction_on with
  | _ n ih =>
      intro acc
      rw [natToDigits]
      by_cases h : n < 10
      · rw [dif_pos h]
        simp only [digitsToNat, digitVal_digitChar h, List.length_singleton, pow_one]
        congr 1
        omega
      · rw [dif_neg h, digitsToNat_append]
        rw [ih (n / 10) (Nat.div_lt_self (by omega) (by omega)) acc]
        have hm : n % 10 < 10 := Nat.mod_lt n (by omega)
        simp only [Option.some_bind, digitsToNat, digitVal_digitChar hm,
          List.length_append, List.length_singleton]
        congr 1
        have hmod : 10 * (n / 10) + n % 10 = n := Nat.div_add_mod n 10
        calc 10 * (acc * 10 ^ (natToDigits (n / 10)).length + n / 10) + n % 10
            = acc * (10 ^ (natToDigits (n / 10)).length * 10)
              + (10 * (n / 10) + n % 10) := by ring
          _ = acc * 10 ^ ((natToDigits (n / 10)).length + 1) + n := by
              rw [← pow_succ, hmod]

theorem pyIntCore_natToDigits (n : Nat) : pyIntCore (natToDigits n) = some ((n : Int)) := by
  cases hds : natToDigits n with
  | nil => exact absurd hds (natToDigits_ne_nil n)
  | cons c rest =>
      have hc : ∃ d, d < 10 ∧ c = digitChar d :=
        natToDigits_mem c (hds ▸ List.mem_cons_self c rest)
      rcases hc with ⟨d, hd, rfl⟩
      rw [pyIntCore, if_neg (digitChar_ne_dash hd), if_neg (digitChar_ne_plus hd), ← hds,
        digitsToNat_natToDigits n 0]
      simp

theorem pyInt_pyIntToString (n : Int) : pyInt (pyIntToString n) = some n := by
  rw [pyInt, pyIntToString]
  by_cases h : n < 0
  · rw [if_pos h]
    show pyIntCore ('-' :: natToDigits n.natAbs) = some n
    rw [pyIntCore, if_pos rfl, if_neg (natToDigits_ne_nil n.natAbs),
      digitsToNat_natToDigits n.natAbs 0]
    rw [Option.map_some']
    congr 1
    omega
  · rw [if_neg h]
    show pyIntCore (natToDigits n.toNat) = some n
    rw [pyIntCore_natToDigits]
    congr 1
    omega

theorem jsonGet_error_kind {v : JsonValue} {key : String} {e : PyError}
    (h : jsonGet v key = Except.error e) :
    e = PyError.keyError ∨ e = PyError.typeError := by
  cases v with
  | obj fields =>
      rw [jsonGet] at h
      cases hf : fieldLookup key fields with
      | some x => rw [hf] at h; exact absurd h (by simp)
      | none => rw [hf] at h; exact Or.inl (Except.error.injEq .. ▸ h).symm
  | null => exact Or.inr (Except.error.injEq .. ▸ h).symm
  | boolean b => exact Or.inr (Except.error.injEq .. ▸ h).symm
  | num q => exact Or.inr (Except.error.injEq .. ▸ h).symm
  | str u => exact Or.inr (Except.error.injEq .. ▸ h).symm
  | arr xs => exact Or.inr (Except.error.injEq .. ▸ h).symm

theorem isCaught_jsonGet_error {v : JsonValue} {key : String} {e : PyError}
    (h : jsonGet v key = Except.error e) : isCaught e = false := by
  rcases jsonGet_error_kind h with rfl | rfl <;> rfl

theorem loadEntries_error :
    ∀ (es : List (String × JsonValue)) (s : SimState) (accE : List JsonValue)
      (e : PyError) (s2 : SimState), loadEntries s accE es = (some e, s2) →
      s2.corpus_embeddings = s.corpus_embeddings ∧ isCaught e = false := by
  intro es
  induction es with
  | nil =>
      intro s accE e s2 h
      exact absurd h (by simp [loadEntries])
  | cons p rest ih =>
      intro s accE e s2 h
      obtain ⟨k, v⟩ := p
      cases hdoc : jsonGet v "doc" with
      | error e0 =>
          simp only [loadEntries, hdoc] at h
          obtain ⟨he, hs⟩ := Prod.mk.injEq .. ▸ h
          subst hs
          exact ⟨rfl, (Option.some.injEq .. ▸ he) ▸ isCaught_jsonGet_error hdoc⟩
      | ok doc =>
          cases hid : pyInt k with
          | none =>
              simp only [loadEntries, hdoc, hid] at h
              obtain ⟨he, hs⟩ := Prod.mk.injEq .. ▸ h
              subst hs
              exact ⟨rfl, (Option.some.injEq .. ▸ he) ▸ rfl⟩
          | some id =>
              cases hemb : jsonGet v "doc_emb" with
              | error e0 =>
                  simp only [loadEntries, hdoc, hid, hemb] at h
                  obtain ⟨he, hs⟩ := Prod.mk.injEq .. ▸ h
                  subst hs
                  exact ⟨rfl, (Option.some.injEq .. ▸ he) ▸ isCaught_jsonGet_error hemb⟩
              | ok emb =>
                  simp only [loadEntries, hdoc, hid, hemb] at h
                  exact ih { s with corpus := dictInsert s.corpus id doc }
                    (accE ++ [emb]) e s2 h

/-- Claim C4, amended.  A load failure from a missing file or from content
that is not parseable JSON is caught before any mutation: no exception
escapes the call and the store is left completely unchanged.  Any other
load failure (the file parses but has an unexpected shape) escapes as an
uncaught exception — never one of the caught kinds — and only the
embedding list is guaranteed unchanged, the corpus may have been partially
populated by the entries preceding the failure. -/
theorem load_index_error_amended (s : SimState) (file : FileContent) :
    load_index s FileContent.missing = (none, s) ∧
    load_index s FileContent.invalidJson = (none, s) ∧
    ∀ e, (load_index s file).1 = some e →
      (load_index s file).2.corpus_embeddings = s.corpus_embeddings ∧
        isCaught e = false := by
  refine ⟨rfl, rfl, ?_⟩
  intro e he
  cases file with
  | missing => exact absurd he (by simp [load_index, loadBody, readJson, isCaught])
  | invalidJson => exact absurd he (by simp [load_index, loadBody, readJson, isCaught])
  | json v =>
      cases v with
      | obj entries =>
          cases hle : loadEntries s [] entries with
          | mk oe s2 =>
              cases oe with
              | none =>
                  rw [show load_index s (FileContent.json (JsonValue.obj entries))
                        = (none, s2) by simp [load_index, loadBody, readJson, hle]] at he
                  exact absurd he (by simp)
              | some e0 =>
                  have hkind := loadEntries_error entries s [] e0 s2 hle
                  have hli : load_index s (FileContent.json (JsonValue.obj entries))
                      = (some e0, s2) := by
                    simp [load_index, loadBody, readJson, hle, hkind.2]
                  rw [hli] at he ⊢
                  have : e0 = e := Option.some.injEq .. ▸ he
                  subst this
                  exact ⟨hkind.1, hkind.2⟩
      | null => exact ⟨rfl, (Option.some.injEq .. ▸ he) ▸ rfl⟩
      | boolean b => exact ⟨rfl, (Option.some.injEq .. ▸ he) ▸ rfl⟩
      | num q => exact ⟨rfl, (Option.some.injEq .. ▸ he) ▸ rfl⟩
      | str u => exact ⟨rfl, (Option.some.injEq .. ▸ he) ▸ rfl⟩
      | arr xs => exact ⟨rfl, (Option.some.injEq .. ▸ he) ▸ rfl⟩

/-- Witness for the amended C4 theorem at the concrete partially-failing
file of the counterexample. -/
theorem load_index_error_amended_witness :
    (load_index emptyState partialFile).2.corpus_embeddings
      = emptyState.corpus_embeddings ∧
    isCaught PyError.valueError = false :=
  (load_index_error_amended emptyState partialFile).2.2 PyError.valueError rfl

theorem save_index_eq_snapshot (s : SimState)
    (hnd : (s.corpus.map Prod.fst).Nodup) :
    save_index s = JsonValue.obj (snapshotEntries s.corpus s.corpus_embeddings) := by
  rw [save_index, snapshotEntries, List.zip_map_left, List.map_map]
  congr 1
  apply List.map_congr_left
  intro p hp
  obtain ⟨q, e⟩ := p
  have hq : q ∈ s.corpus := (List.of_mem_zip hp).1
  obtain ⟨k, v⟩ := q
  simp only [Function.comp_apply, Prod.map_apply, id_eq]
  rw [pyLookup_of_mem_nodup hnd hq]
  rfl

theorem loadEntries_snapshot :
    ∀ (c : List (Int × JsonValue)) (embs : List JsonValue) (s : SimState)
      (accE : List JsonValue),
      (c.map Prod.fst).Nodup → c.length = embs.length →
      (∀ k ∈ c.map Prod.fst, k ∉ s.corpus.map Prod.fst) →
      loadEntries s accE (snapshotEntries c embs)
        = (none, ⟨s.corpus ++ c, accE ++ embs⟩) := by
  intro c
  induction c with
  | nil =>
      intro embs s accE _ hlen _
      have : embs = [] := List.length_eq_zero.mp (hlen ▸ rfl)
      subst this
      simp [snapshotEntries, loadEntries]
  | cons p c' ih =>
      intro embs s accE hnd hlen hfresh
      cases embs with
      | nil => exact absurd hlen (by simp)
      | cons e embs' =>
          simp only [List.map_cons, List.nodup_cons] at hnd
          have hstep : snapshotEntries (p :: c') (e :: embs')
              = (pyIntToString p.1,
                  JsonValue.obj [("doc", p.2), ("doc_emb", e)]) :: snapshotEntries c' embs' := rfl
          rw [hstep]
          have hdoc : jsonGet (JsonValue.obj [("doc", p.2), ("doc_emb", e)]) "doc"
              = Except.ok p.2 := rfl
          have hemb : jsonGet (JsonValue.obj [("doc", p.2), ("doc_emb", e)]) "doc_emb"
              = Except.ok e := rfl
          simp only [loadEntries, hdoc, hemb, pyInt_pyIntToString p.1]
          have hp1 : p.1 ∉ s.corpus.map Prod.fst :=
            hfresh p.1 (List.mem_cons_self p.1 _)
          rw [dictInsert_of_not_mem p.2 hp1]
          have hfresh' : ∀ k ∈ c'.map Prod.fst,
              k ∉ (s.corpus ++ [(p.1, p.2)]).map Prod.fst := by
            intro k hk
            rw [List.map_append, List.mem_append]
            rintro (hmem | hmem)
            · exact hfresh k (List.mem_cons_of_mem p.1 hk) hmem
            · simp only [List.map_cons, List.map_nil, List.mem_singleton] at hmem
              exact hnd.1 (hmem ▸ hk)
          have := ih embs' { s with corpus := s.corpus ++ [(p.1, p.2)] }
            (accE ++ [e]) hnd.2 (by simpa using hlen) hfresh'
          rw [this]
          simp [List.append_assoc]

/-- Claim C5, amended.  For every store whose corpus and embedding list
have equal length (and whose dict keys are, as in every Python dict, free
of duplicates), `save_index` followed by `load_index` into a fresh store
reproduces exactly the original id-to-document mapping — the integer ids
serialised to strings by `json.dump` parse back — and the original
embedding list. -/
theorem save_load_roundtrip_aligned (s : SimState)
    (hnd : (s.corpus.map Prod.fst).Nodup)
    (hlen : s.corpus.length = s.corpus_embeddings.length) :
    load_index emptyState (fileOf (save_index s)) = (none, s) := by
  rw [fileOf, save_index_eq_snapshot s hnd]
  have h := loadEntries_snapshot s.corpus s.corpus_embeddings emptyState [] hnd hlen
    (by intro k _; simp [emptyState])
  simp only [load_index, loadBody, readJson, h]
  simp [emptyState]

/-- Witness for the amended C5 theorem at the concrete store produced by
`add_corpus(["a", "b"])` on a fresh store. -/
theorem save_load_roundtrip_aligned_witness :
    (collideState1.corpus.map Prod.fst).Nodup ∧
    collideState1.corpus.length = collideState1.corpus_embeddings.length ∧
    load_index emptyState (fileOf (save_index collideState1)) = (none, collideState1) :=
  ⟨by decide, rfl, save_load_roundtrip_aligned collideState1 (by decide) rfl⟩

theorem corpusStartId_eq (s : SimState) : corpusStartId s = (s.corpus.length : Int) := by
  rw [corpusStartId]
  by_cases h : s.corpus.isEmpty
  · rw [if_pos h, List.isEmpty_iff.mp h]
    rfl
  · rw [if_neg h]

theorem newCorpusFor_list_aux (s : SimState) :
    ∀ (l : List String) (n : Nat) (acc : List (Int × String)),
      (∀ k ∈ acc.map Prod.fst, k < corpusStartId s + (n : Int)) →
      (l.enumFrom n).foldl
          (fun nc p =>
            if corpusHasText s p.2 then nc
            else dictInsert nc (corpusStartId s + (p.1 : Int)) p.2) acc
        = acc ++ (l.enumFrom n).filterMap
            (fun p => if corpusHasText s p.2 then none
              else some (corpusStartId s + (p.1 : Int), p.2)) := by
  intro l
  induction l with
  | nil =>
      intro n acc _
      simp
  | cons x xs ih =>
      intro n acc hacc
      rw [List.enumFrom_cons]
      by_cases hx : corpusHasText s x
      · rw [List.foldl_cons, List.filterMap_cons_none (by simp [hx]), if_pos hx]
        exact ih (n + 1) acc (fun k hk => by
          have := hacc k hk
          push_cast
          push_cast at this
          omega)
      · rw [List.foldl_cons,
          List.filterMap_cons_some (show _ = some (corpusStartId s + (n : Int), x) by
            simp [hx]), if_neg hx]
        have hkey : (corpusStartId s + (n : Int)) ∉ acc.map Prod.fst := by
          intro hmem
          have := hacc _ hmem
          omega
        rw [dictInsert_of_not_mem _ hkey]
        rw [ih (n + 1) (acc ++ [(corpusStartId s + (n : Int), x)]) (by
          intro k hk
          rw [List.map_append, List.mem_append] at hk
          rcases hk with hk | hk
          · have := hacc k hk
            push_cast
            omega
          · simp only [List.map_cons, List.map_nil, List.mem_singleton] at hk
            push_cast
            omega)]
        simp [List.append_assoc]

/-- The `new_corpus` dict that the list branch of `add_corpus` builds:
entry `(start_id + position, document)` for every candidate whose text is
not yet among the store values, in input order; skipped candidates leave
their positional id unused. -/
theorem newCorpusFor_list_eq (s : SimState) (l : List String) :
    newCorpusFor s (CorpusInput.list l)
      = l.enum.filterMap (fun p =>
          if corpusHasText s p.2 then none
          else some (corpusStartId s + (p.1 : Int), p.2)) := by
  have h := newCorpusFor_list_aux s l 0 [] (by simp)
  rw [newCorpusFor]
  exact h

theorem newCorpusFor_singleton_new (s : SimState) (t : String)
    (ht : corpusHasText s t = false) :
    newCorpusFor s (CorpusInput.list [t]) = [(corpusStartId s, t)] := by
  rw [newCorpusFor_list_eq]
  show List.filterMap _ [((0 : Nat), t)] = _
  rw [List.filterMap_cons_some (show _ = some (corpusStartId s + ((0 : Nat) : Int), t) by
    simp [ht])]
  simp

theorem newCorpusFor_singleton_dup (s : SimState) (t : String)
    (ht : corpusHasText s t = true) :
    newCorpusFor s (CorpusInput.list [t]) = [] := by
  rw [newCorpusFor_list_eq]
  show List.filterMap _ [((0 : Nat), t)] = _
  rw [List.filterMap_cons_none (by simp [ht])]
  rfl

/-- Claim C3, counterexample.  Start fresh, `add_corpus(["a", "b"])`
(ids 0, 1), then `add_corpus(["a", "c"])`: the store has size 2, yet the
genuinely-new `"c"` is stored under id 3 — `start_id + position 1`, the
skipped duplicate having consumed position 0 — and not under the claimed
contiguous id 2.  The follow-up `add_corpus(["d"])` inserts a brand-new
text without growing the corpus at all (its id 3 collides), so the first
insertion of `"d"` does not increase the size by exactly 1 either. -/
theorem add_corpus_ids_not_contiguous_cex :
    collideState1.corpus.length = 2 ∧
    pyLookup (2 : Int) collideState2.corpus = none ∧
    pyLookup (3 : Int) collideState2.corpus = some (JsonValue.str "c") ∧
    corpusHasText collideState2 "d" = false ∧
    collideState3.corpus.length = collideState2.corpus.length :=
  ⟨rfl, rfl, rfl, rfl, rfl⟩

/-- Claim C3, amended.  A candidate whose text already exists among the
store values is skipped — not inserted and not encoded — and a still-new
text is inserted and encoded once; but the id of an inserted document is
`start_id + its position in the input sequence` (skipped candidates leave
holes rather than freeing their id), and the corpus grows by the number
of inserted documents only while those ids stay collision-free, as they do
for a store whose ids all lie below its size.  Inserting the same text a
second time then changes nothing at all: no id, no document, no
embedding. -/
theorem add_corpus_dedup_amended (encode : List String → List JsonValue)
    (s : SimState) (t : String) (henc : FaithfulEncoder encode)
    (hkeys : ∀ k ∈ s.corpus.map Prod.fst, k < (s.corpus.length : Int))
    (ht : corpusHasText s t = false) :
    (∀ (s0 : SimState) (l : List String),
        newCorpusFor s0 (CorpusInput.list l)
          = l.enum.filterMap (fun p =>
              if corpusHasText s0 p.2 then none
              else some (corpusStartId s0 + (p.1 : Int), p.2))) ∧
    (add_corpus encode s (CorpusInput.list [t])).corpus
        = s.corpus ++ [((s.corpus.length : Int), JsonValue.str t)] ∧
    (add_corpus encode s (CorpusInput.list [t])).corpus_embeddings.length
        = s.corpus_embeddings.length + 1 ∧
    newCorpusFor (add_corpus encode s (CorpusInput.list [t]))
        (CorpusInput.list [t]) = [] ∧
    add_corpus encode (add_corpus encode s (CorpusInput.list [t]))
        (CorpusInput.list [t])
      = add_corpus encode s (CorpusInput.list [t]) := by
  have hnc := newCorpusFor_singleton_new s t ht
  have hstart : corpusStartId s ∉ s.corpus.map Prod.fst := by
    intro hmem
    have := hkeys _ hmem
    rw [corpusStartId_eq] at this
    omega
  have hcorpus : (add_corpus encode s (CorpusInput.list [t])).corpus
      = s.corpus ++ [((s.corpus.length : Int), JsonValue.str t)] := by
    show dictUpdate s.corpus ((newCorpusFor s (CorpusInput.list [t])).map
        (fun p => (p.1, JsonValue.str p.2))) = _
    rw [hnc]
    show dictInsert s.corpus (corpusStartId s) (JsonValue.str t) = _
    rw [dictInsert_of_not_mem _ hstart, corpusStartId_eq]
  have htexts : (newCorpusFor s (CorpusInput.list [t])).map Prod.snd = [t] := by
    rw [hnc]
    rfl
  have hemb : (add_corpus encode s (CorpusInput.list [t])).corpus_embeddings.length
      = s.corpus_embeddings.length + 1 := by
    show (if s.corpus_embeddings.isEmpty
        then encode ((newCorpusFor s (CorpusInput.list [t])).map Prod.snd)
        else s.corpus_embeddings
          ++ encode ((newCorpusFor s (CorpusInput.list [t])).map Prod.snd)).length = _
    rw [htexts]
    by_cases h : s.corpus_embeddings.isEmpty
    · rw [if_pos h, List.isEmpty_iff.mp h, henc [t]]
      rfl
    · rw [if_neg h, List.length_append, henc [t]]
      rfl
  have hdup : corpusHasText (add_corpus encode s (CorpusInput.list [t])) t = true := by
    rw [corpusHasText, hcorpus, List.any_append]
    have : [((s.corpus.length : Int), JsonValue.str t)].any
        (fun p => pyStrEq t p.2) = true := by
      simp [pyStrEq]
    rw [this, Bool.or_true]
  have hnc2 := newCorpusFor_singleton_dup _ t hdup
  refine ⟨newCorpusFor_list_eq, hcorpus, hemb, hnc2, ?_⟩
  have hencnil : encode [] = [] := List.length_eq_zero.mp (henc [])
  show (⟨dictUpdate (add_corpus encode s (CorpusInput.list [t])).corpus
      ((newCorpusFor (add_corpus encode s (CorpusInput.list [t]))
        (CorpusInput.list [t])).map (fun p => (p.1, JsonValue.str p.2))),
      if (add_corpus encode s (CorpusInput.list [t])).corpus_embeddings.isEmpty
      then encode ((newCorpusFor (add_corpus encode s (CorpusInput.list [t]))
        (CorpusInput.list [t])).map Prod.snd)
      else (add_corpus encode s (CorpusInput.list [t])).corpus_embeddings
        ++ encode ((newCorpusFor (add_corpus encode s (CorpusInput.list [t]))
          (CorpusInput.list [t])).map Prod.snd)⟩ : SimState)
    = add_corpus encode s (CorpusInput.list [t])
  rw [hnc2]
  show (⟨(add_corpus encode s (CorpusInput.list [t])).corpus,
      if (add_corpus encode s (CorpusInput.list [t])).corpus_embeddings.isEmpty
      then encode [] else (add_corpus encode s (CorpusInput.list [t])).corpus_embeddings
        ++ encode []⟩ : SimState) = add_corpus encode s (CorpusInput.list [t])
  rw [hencnil, List.append_nil]
  by_cases h : (add_corpus encode s (CorpusInput.list [t])).corpus_embeddings.isEmpty
  · rw [if_pos h, ← List.isEmpty_iff.mp h]
  · rw [if_neg h]

/-- Witness for the amended C3 theorem: adding the new text `"z"` to the
two-document store and then adding it again. -/
theorem add_corpus_dedup_amended_witness :
    FaithfulEncoder demoEncode ∧
    (add_corpus demoEncode collideState1 (CorpusInput.list ["z"])).corpus
      = collideState1.corpus ++ [((2 : Int), JsonValue.str "z")] ∧
    add_corpus demoEncode
        (add_corpus demoEncode collideState1 (CorpusInput.list ["z"]))
        (CorpusInput.list ["z"])
      = add_corpus demoEncode collideState1 (CorpusInput.list ["z"]) := by
  have hfaithful : FaithfulEncoder demoEncode := fun texts => by simp [demoEncode]
  have h := add_corpus_dedup_amended demoEncode collideState1 "z" hfaithful
    (by decide) rfl
  exact ⟨hfaithful, h.2.1, h.2.2.2.2⟩

theorem enum_pairwise_fst_lt (l : List String) :
    l.enum.Pairwise (fun p q => p.1 < q.1) := by
  have h : (l.enum.map Prod.fst).Pairwise (fun a b => a < b) := by
    rw [List.enum_map_fst]
    exact List.pairwise_lt_range _
  exact List.pairwise_map.mp h

theorem newCorpusFor_list_keys_pairwise (s : SimState) (l : List String) :
    (newCorpusFor s (CorpusInput.list l)).Pairwise (fun p q => p.1 < q.1) := by
  rw [newCorpusFor_list_eq]
  refine List.Pairwise.filterMap _ ?_ (enum_pairwise_fst_lt l)
  intro a a' hlt b hb b' hb'
  by_cases ha : corpusHasText s a.2
  · rw [if_pos ha] at hb
    exact absurd hb (by simp)
  · rw [if_neg ha] at hb
    by_cases ha' : corpusHasText s a'.2
    · rw [if_pos ha'] at hb'
      exact absurd hb' (by simp)
    · rw [if_neg ha'] at hb'
      have hb1 : (corpusStartId s + (a.1 : Int), a.2) = b := by simpa using hb
      have hb2 : (corpusStartId s + (a'.1 : Int), a'.2) = b' := by simpa using hb'
      subst hb1
      subst hb2
      show corpusStartId s + (a.1 : Int) < corpusStartId s + (a'.1 : Int)
      omega

theorem newCorpusFor_list_keys_nodup (s : SimState) (l : List String) :
    ((newCorpusFor s (CorpusInput.list l)).map Prod.fst).Nodup := by
  have h := newCorpusFor_list_keys_pairwise s l
  show ((newCorpusFor s (CorpusInput.list l)).map Prod.fst).Pairwise (fun a b => a ≠ b)
  rw [List.pairwise_map]
  exact h.imp (fun hlt => Int.ne_of_lt hlt)

theorem newCorpusFor_list_mem (s : SimState) {l : List String} {i : Nat} {t : String}
    (hti : l[i]? = some t) (ht : corpusHasText s t = false) :
    (corpusStartId s + (i : Int), t) ∈ newCorpusFor s (CorpusInput.list l) := by
  rw [newCorpusFor_list_eq]
  exact List.mem_filterMap.mpr
    ⟨(i, t), List.mk_mem_enum_iff_getElem?.mpr hti, by simp [ht]⟩

theorem two_le_count_map {α β : Type _} [DecidableEq β] {f : α → β} {t : β} :
    ∀ {l : List α} {a b : α}, a ∈ l → b ∈ l → a ≠ b → f a = t → f b = t →
      2 ≤ (l.map f).count t := by
  intro l
  induction l with
  | nil =>
      intro a b ha _ _ _ _
      simp at ha
  | cons x xs ih =>
      intro a b ha hb hab hfa hfb
      have hcx : ((x :: xs).map f).count t
          = (xs.map f).count t + (if (f x == t) = true then 1 else 0) := by
        rw [List.map_cons, List.count_cons]
      rcases List.mem_cons.mp ha with ha1 | ha2
      · have hbx : b ∈ xs := by
          rcases List.mem_cons.mp hb with hb1 | hb2
          · exact absurd (ha1.trans hb1.symm) hab
          · exact hb2
        have h1 : 0 < (xs.map f).count t :=
          List.count_pos_iff.mpr (List.mem_map.mpr ⟨b, hbx, hfb⟩)
        have hx : (f x == t) = true := beq_iff_eq.mpr (ha1 ▸ hfa)
        rw [hcx, hx, if_pos rfl]
        omega
      · rcases List.mem_cons.mp hb with hb1 | hb2
        · have h1 : 0 < (xs.map f).count t :=
            List.count_pos_iff.mpr (List.mem_map.mpr ⟨a, ha2, hfa⟩)
          have hx : (f x == t) = true := beq_iff_eq.mpr (hb1 ▸ hfb)
          rw [hcx, hx, if_pos rfl]
          omega
        · have h2 := ih ha2 hb2 hab hfa hfb
          rw [hcx]
          omega

theorem add_corpus_emb_length (encode : List String → List JsonValue) (s : SimState)
    (input : CorpusInput) (henc : FaithfulEncoder encode) :
    (add_corpus encode s input).corpus_embeddings.length
      = s.corpus_embeddings.length + (newCorpusFor s input).length := by
  show (if s.corpus_embeddings.isEmpty
      then encode ((newCorpusFor s input).map Prod.snd)
      else s.corpus_embeddings ++ encode ((newCorpusFor s input).map Prod.snd)).length = _
  by_cases h : s.corpus_embeddings.isEmpty
  · rw [if_pos h, List.isEmpty_iff.mp h, henc]
    simp
  · rw [if_neg h, List.length_append, henc]
    simp

/-- Claim C9 (confirmed).  Deduplication does not look inside the batch:
when a list input holds the same still-new text at two different
positions, both occurrences are inserted as separate corpus entries under
the distinct ids `start_id + position`, the text is encoded (at least)
twice, and the embedding list grows by one embedding per `new_corpus`
entry — the duplicate check consults only the pre-existing store values. -/
theorem add_corpus_no_intra_batch_dedup (encode : List String → List JsonValue)
    (s : SimState) (l : List String) (t : String) (i j : Nat)
    (henc : FaithfulEncoder encode) (hij : i ≠ j)
    (hti : l[i]? = some t) (htj : l[j]? = some t)
    (ht : corpusHasText s t = false) :
    pyLookup (corpusStartId s + (i : Int))
        (add_corpus encode s (CorpusInput.list l)).corpus = some (JsonValue.str t) ∧
    pyLookup (corpusStartId s + (j : Int))
        (add_corpus encode s (CorpusInput.list l)).corpus = some (JsonValue.str t) ∧
    corpusStartId s + (i : Int) ≠ corpusStartId s + (j : Int) ∧
    2 ≤ ((newCorpusFor s (CorpusInput.list l)).map Prod.snd).count t ∧
    (add_corpus encode s (CorpusInput.list l)).corpus_embeddings.length
      = s.corpus_embeddings.length + (newCorpusFor s (CorpusInput.list l)).length := by
  have hmi := newCorpusFor_list_mem s hti ht
  have hmj := newCorpusFor_list_mem s htj ht
  have hnd : (((newCorpusFor s (CorpusInput.list l)).map
      (fun p => (p.1, JsonValue.str p.2))).map Prod.fst).Nodup := by
    have h := newCorpusFor_list_keys_nodup s l
    rw [List.map_map]
    exact h
  have hlookup : ∀ (k : Int), (k, t) ∈ newCorpusFor s (CorpusInput.list l) →
      pyLookup k (add_corpus encode s (CorpusInput.list l)).corpus
        = some (JsonValue.str t) := by
    intro k hk
    show pyLookup k (dictUpdate s.corpus ((newCorpusFor s (CorpusInput.list l)).map
        (fun p => (p.1, JsonValue.str p.2)))) = _
    exact pyLookup_dictUpdate_mem s.corpus hnd
      (List.mem_map.mpr ⟨(k, t), hk, rfl⟩)
  refine ⟨hlookup _ hmi, hlookup _ hmj, by omega, ?_, add_corpus_emb_length encode s _ henc⟩
  exact two_le_count_map hmi hmj
    (fun hh => hij (by
      have := congrArg Prod.fst hh
      simp only [] at this
      omega)) rfl rfl

/-- Witness for the C9 theorem: `add_corpus(["a", "a"])` on a fresh store
inserts both occurrences under ids 0 and 1 and encodes the text twice. -/
theorem add_corpus_no_intra_batch_dedup_witness :
    FaithfulEncoder demoEncode ∧
    pyLookup (0 : Int)
        (add_corpus demoEncode emptyState (CorpusInput.list ["a", "a"])).corpus
      = some (JsonValue.str "a") ∧
    pyLookup (1 : Int)
        (add_corpus demoEncode emptyState (CorpusInput.list ["a", "a"])).corpus
      = some (JsonValue.str "a") ∧
    2 ≤ ((newCorpusFor emptyState (CorpusInput.list ["a", "a"])).map Prod.snd).count "a" := by
  have hfaithful : FaithfulEncoder demoEncode := fun texts => by simp [demoEncode]
  have h := add_corpus_no_intra_batch_dedup demoEncode emptyState ["a", "a"] "a" 0 1
    hfaithful (by decide) rfl rfl rfl
  exact ⟨hfaithful, h.1, h.2.1, h.2.2.2.1⟩

theorem loadEntries_wf :
    ∀ (es : List (String × JsonValue)) (s : SimState) (accE : List JsonValue),
      (∀ e ∈ es, wellFormedEntry e = true) →
      ∃ sOut, loadEntries s accE es = (none, sOut) ∧
        sOut.corpus_embeddings = accE ++ es.map entryEmb ∧
        ∀ k, k ∉ entryIds es → pyLookup k sOut.corpus = pyLookup k s.corpus := by
  intro es
  induction es with
  | nil =>
      intro s accE _
      exact ⟨{ s with corpus_embeddings := accE }, rfl, by simp [entryIds], fun k _ => rfl⟩
  | cons p rest ih =>
      intro s accE hwf
      obtain ⟨k0, v⟩ := p
      have hw := hwf (k0, v) (List.mem_cons_self _ _)
      simp only [wellFormedEntry, Bool.and_eq_true] at hw
      obtain ⟨⟨hid0, hdoc0⟩, hemb0⟩ := hw
      cases hdoc : jsonGet v "doc" with
      | error e =>
          rw [hdoc] at hdoc0
          exact absurd hdoc0 (by simp [Except.toBool])
      | ok doc =>
          cases hid : pyInt k0 with
          | none =>
              rw [hid] at hid0
              exact absurd hid0 (by simp)
          | some id =>
              cases hemb : jsonGet v "doc_emb" with
              | error e =>
                  rw [hemb] at hemb0
                  exact absurd hemb0 (by simp [Except.toBool])
              | ok emb =>
                  obtain ⟨sOut, hrun, hembs, hpres⟩ :=
                    ih { s with corpus := dictInsert s.corpus id doc } (accE ++ [emb])
                      (fun e he => hwf e (List.mem_cons_of_mem _ he))
                  refine ⟨sOut, ?_, ?_, ?_⟩
                  · simp only [loadEntries, hdoc, hid, hemb]
                    exact hrun
                  · rw [hembs, List.map_cons]
                    have hthis : entryEmb (k0, v) = emb := by
                      simp [entryEmb, hemb, Except.toOption]
                    rw [hthis, List.append_assoc]
                    rfl
                  · intro k hk
                    have hkids : entryIds ((k0, v) :: rest) = id :: entryIds rest := by
                      simp [entryIds, hid]
                    rw [hkids] at hk
                    simp only [List.mem_cons, not_or] at hk
                    rw [hpres k hk.2, pyLookup_dictInsert_ne s.corpus doc hk.1]

/-- Claim C10 (confirmed).  A successful `load_index` into a non-empty
store merges the file entries into the existing id-to-document mapping —
every existing id not named by the file keeps its document — while the
embedding list is replaced wholesale by exactly the embeddings of the
file; concretely, loading a one-entry snapshot with the fresh id 5 into
the two-document store leaves three documents but a single embedding. -/
theorem load_index_merges_corpus_replaces_embeddings (s : SimState)
    (es : List (String × JsonValue)) (hwf : ∀ e ∈ es, wellFormedEntry e = true) :
    (∃ sOut, load_index s (FileContent.json (JsonValue.obj es)) = (none, sOut) ∧
      sOut.corpus_embeddings = es.map entryEmb ∧
      (∀ k, k ∉ entryIds es → pyLookup k sOut.corpus = pyLookup k s.corpus)) ∧
    (load_index collideState1 mergeDemoFile).1 = none ∧
    (load_index collideState1 mergeDemoFile).2.corpus.length = 3 ∧
    (load_index collideState1 mergeDemoFile).2.corpus_embeddings.length = 1 := by
  obtain ⟨sOut, hrun, hembs, hpres⟩ := loadEntries_wf es s [] hwf
  refine ⟨⟨sOut, ?_, by simpa using hembs, hpres⟩, by decide, by decide, by decide⟩
  simp [load_index, loadBody, readJson, hrun]

/-- Witness for the C10 theorem at a concrete well-formed one-entry
snapshot loaded into the empty store. -/
theorem load_index_merge_witness :
    (∀ e ∈ [("5", JsonValue.obj [("doc", JsonValue.str "z"),
        ("doc_emb", JsonValue.arr [JsonValue.num 9])])], wellFormedEntry e = true) ∧
    ∃ sOut, load_index emptyState (FileContent.json (JsonValue.obj
        [("5", JsonValue.obj [("doc", JsonValue.str "z"),
          ("doc_emb", JsonValue.arr [JsonValue.num 9])])])) = (none, sOut) ∧
      sOut.corpus_embeddings = [("5", JsonValue.obj [("doc", JsonValue.str "z"),
          ("doc_emb", JsonValue.arr [JsonValue.num 9])])].map entryEmb ∧
      (∀ k, k ∉ entryIds [("5", JsonValue.obj [("doc", JsonValue.str "z"),
          ("doc_emb", JsonValue.arr [JsonValue.num 9])])] →
        pyLookup k sOut.corpus = pyLookup k emptyState.corpus) := by
  have hwf : ∀ e ∈ [("5", JsonValue.obj [("doc", JsonValue.str "z"),
      ("doc_emb", JsonValue.arr [JsonValue.num 9])])], wellFormedEntry e = true := by
    decide
  exact ⟨hwf,
    (load_index_merges_corpus_replaces_embeddings emptyState _ hwf).1⟩

theorem pyLookup_enumFrom_map {α β : Type _} (f : α → β) :
    ∀ (xs : List α) (n idx : Nat),
      pyLookup (n + idx) ((xs.enumFrom n).map (fun p => (p.1, f p.2)))
        = (xs[idx]?).map f := by
  intro xs
  induction xs with
  | nil =>
      intro n idx
      simp [pyLookup]
  | cons x xs' ih =>
      intro n idx
      rw [List.enumFrom_cons, List.map_cons]
      cases idx with
      | zero => simp [pyLookup]
      | succ k =>
          have hne : n ≠ n + (k + 1) := by omega
          simp only [pyLookup, if_neg hne]
          rw [show n + (k + 1) = (n + 1) + k by omega, ih (n + 1) k,
            List.getElem?_cons_succ]

theorem pyLookup_queryIdsMap (q : QueryInput) (idx : Nat) :
    pyLookup idx (queryIdsMap q) = ((normalizeQueries q)[idx]?).map Prod.fst := by
  have h := pyLookup_enumFrom_map (Prod.fst (α := QueryKey) (β := String))
    (normalizeQueries q) 0 idx
  simpa [queryIdsMap, List.enum] using h

theorem setScore_keys {res : List (QueryKey × List (Nat × ℚ))} {qid : QueryKey}
    {cid : Nat} {sc : ℚ} {r : List (QueryKey × List (Nat × ℚ))}
    (h : setScore res qid cid sc = some r) :
    r.map Prod.fst = res.map Prod.fst := by
  rw [setScore] at h
  by_cases hk : keyMem qid res
  · rw [if_pos hk] at h
    have hr : res.map (fun p => if p.1 = qid then (p.1, dictInsert p.2 cid sc) else p)
        = r := Option.some.injEq .. ▸ h
    rw [← hr, List.map_map]
    apply List.map_congr_left
    intro p _
    by_cases hp : p.1 = qid
    · simp [hp]
    · simp [hp]
  · rw [if_neg hk] at h
    exact absurd h (by simp)

theorem setScore_some_of_mem {res : List (QueryKey × List (Nat × ℚ))} {qid : QueryKey}
    (cid : Nat) (sc : ℚ) (h : keyMem qid res = true) :
    ∃ r, setScore res qid cid sc = some r := by
  rw [setScore, if_pos h]
  exact ⟨_, rfl⟩

theorem fillHits_ok (qid : QueryKey) :
    ∀ (hits : List SearchHit) (res : List (QueryKey × List (Nat × ℚ))),
      keyMem qid res = true →
      ∃ r, fillHits qid hits res = some r ∧ r.map Prod.fst = res.map Prod.fst := by
  intro hits
  induction hits with
  | nil =>
      intro res _
      exact ⟨res, rfl, rfl⟩
  | cons hhit rest ih =>
      intro res h
      obtain ⟨r1, hr1⟩ := setScore_some_of_mem hhit.corpus_id hhit.score h
      have hk1 := setScore_keys hr1
      have hmem1 : keyMem qid r1 = true := by
        rw [keyMem_eq_true_iff, hk1, ← keyMem_eq_true_iff]
        exact h
      obtain ⟨r, hr, hkeys⟩ := ih r1 hmem1
      refine ⟨r, ?_, hkeys.trans hk1⟩
      simp only [fillHits, hr1]
      exact hr

theorem fillAll_ok (idsMap : List (Nat × QueryKey)) (topn : Nat) :
    ∀ (rows : List (Nat × List SearchHit)) (res : List (QueryKey × List (Nat × ℚ))),
      (∀ pr ∈ rows, ∃ qid, pyLookup pr.1 idsMap = some qid ∧ qid ∈ res.map Prod.fst) →
      ∃ r, fillAll idsMap topn rows res = some r ∧ r.map Prod.fst = res.map Prod.fst := by
  intro rows
  induction rows with
  | nil =>
      intro res _
      exact ⟨res, rfl, rfl⟩
  | cons pr rest ih =>
      intro res hyp
      obtain ⟨idx, hits⟩ := pr
      obtain ⟨qid, hq, hqmem⟩ := hyp (idx, hits) (List.mem_cons_self _ _)
      obtain ⟨r1, hr1, hkeys1⟩ := fillHits_ok qid (hits.take topn) res
        ((keyMem_eq_true_iff qid res).mpr hqmem)
      obtain ⟨r, hr, hkeys⟩ := ih r1 (fun pr2 hpr2 => by
        obtain ⟨qid2, hq2, hmem2⟩ := hyp pr2 (List.mem_cons_of_mem _ hpr2)
        exact ⟨qid2, hq2, hkeys1 ▸ hmem2⟩)
      refine ⟨r, ?_, hkeys.trans hkeys1⟩
      simp only [fillAll, hq, hr1]
      exact hr

/-- Claim C8 (confirmed).  `most_similar` keys its result by the original
query ids: the result has exactly the keys of the normalised input, where
a dict keeps its own keys (`{"q7": t}` yields key `"q7"`), a bare string
becomes the single query id 0, and a sequence is assigned sequential ids
starting at 0. -/
theorem most_similar_keyed_by_query_ids (cosImpl dotImpl : ScoreFn)
    (encode : List String → List JsonValue) (s : SimState) (q : QueryInput)
    (topn : Nat) (henc : FaithfulEncoder encode)
    (hshape : WellShapedScore cosImpl) :
    (∃ r, most_similar cosImpl dotImpl encode s q topn "cos_sim" = Except.ok r ∧
      r.map Prod.fst = (normalizeQueries q).map Prod.fst) ∧
    (∀ entries, normalizeQueries (QueryInput.dict entries)
        = entries.map (fun p => (QueryKey.txt p.1, p.2))) ∧
    (∀ t, normalizeQueries (QueryInput.str t) = [(QueryKey.num 0, t)]) ∧
    (∀ qs, normalizeQueries (QueryInput.list qs)
        = qs.enum.map (fun p => (QueryKey.num p.1, p.2))) := by
  refine ⟨?_, fun entries => rfl, fun t => rfl, fun qs => rfl⟩
  have hrows : ∀ pr ∈ (semantic_search cosImpl (encode (queryTexts q))
      s.corpus_embeddings topn).enum,
      ∃ qid, pyLookup pr.1 (queryIdsMap q) = some qid ∧
        qid ∈ (initResult q).map Prod.fst := by
    intro pr hpr
    obtain ⟨idx, hits⟩ := pr
    have hlt : idx < (semantic_search cosImpl (encode (queryTexts q))
        s.corpus_embeddings topn).length := by
      obtain ⟨hbound, _⟩ := List.getElem?_eq_some.mp
        (List.mk_mem_enum_iff_getElem?.mp hpr)
      exact hbound
    have hlen : (semantic_search cosImpl (encode (queryTexts q))
        s.corpus_embeddings topn).length = (normalizeQueries q).length := by
      rw [semantic_search, List.length_map, hshape, henc]
      rw [queryTexts, List.length_map]
    rw [hlen] at hlt
    refine ⟨((normalizeQueries q).get ⟨idx, hlt⟩).1, ?_, ?_⟩
    · rw [pyLookup_queryIdsMap q idx, List.getElem?_eq_getElem hlt]
      rfl
    · have hmem : (normalizeQueries q).get ⟨idx, hlt⟩ ∈ normalizeQueries q :=
        List.getElem_mem hlt
      rw [initResult, List.map_map]
      exact List.mem_map.mpr ⟨_, hmem, rfl⟩
  obtain ⟨r, hr, hkeys⟩ := fillAll_ok (queryIdsMap q) topn
    (semantic_search cosImpl (encode (queryTexts q)) s.corpus_embeddings topn).enum
    (initResult q) hrows
  refine ⟨r, ?_, ?_⟩
  · show mostSimilarBody cosImpl encode s q topn = Except.ok r
    simp only [mostSimilarBody, hr]
  · rw [hkeys, initResult, List.map_map]
    apply List.map_congr_left
    intro p _
    rfl

/-- Witness for the C8 theorem: the dict query `{"q7": "text"}` against
the empty store yields a result keyed exactly by `"q7"`. -/
theorem most_similar_keyed_witness :
    FaithfulEncoder demoEncode ∧ WellShapedScore stubScore ∧
    ∃ r, most_similar stubScore stubScore demoEncode emptyState
        (QueryInput.dict [("q7", "text")]) 10 "cos_sim" = Except.ok r ∧
      r.map Prod.fst = [QueryKey.txt "q7"] := by
  have hf : FaithfulEncoder demoEncode := fun texts => by simp [demoEncode]
  have hw : WellShapedScore stubScore := fun a b => by simp [stubScore]
  obtain ⟨r, hr, hkeys⟩ := (most_similar_keyed_by_query_ids stubScore stubScore
    demoEncode emptyState (QueryInput.dict [("q7", "text")]) 10 hf hw).1
  exact ⟨hf, hw, r, hr, by rw [hkeys]; rfl⟩
